import Mathlib

/-!
Snake Hunt: a shallow embedding of `src/App.js`

The React component `App` keeps its session in `useState` cells and changes
them from event handlers (`startGame`, `resetGame`, `togglePause`,
`handleKeyPress`) and from the interval callback `gameLoop`.  Here every
handler is a function from the state before the event to the state after it.

* JavaScript numbers that only ever hold integers (grid coordinates, score,
  tick interval, particle life) are `Int`; numbers that hold fractions
  (`Math.random()`, particle position, velocity, size, alpha) are exact
  rationals `ℚ`.
* `Math.random()` and `Date.now()` are inputs: an `Env` carries the values
  they return during one handler call.
* A handler returns `none` when the JavaScript does not return: the
  `do ... while` loop of `generateFood` consumed every supplied sample without
  leaving it, or `newSnake[0].x` was read on an empty array.
* Handlers are closures over the state of the latest render, so every handler
  reads the state as it was before the event; in particular `generateFood`
  reads the snake from before the event.
* Every state updater runs once per call, as in a production build.
* The stored high score (`localStorage`) and the canvas drawing are outside the
  embedding.
-/

namespace SnakeHunt

/-! ## Constants -/

/-- Source: `const GRID_SIZE = 20;` -/
def GRID_SIZE : Int := 20

/-- Source: `const CANVAS_SIZE = 400;` -/
def CANVAS_SIZE : Int := 400

/-- Source: `const TILE_COUNT = CANVAS_SIZE / GRID_SIZE;` -/
def TILE_COUNT : Int := CANVAS_SIZE / GRID_SIZE

/-! ## Data model -/

/-- An object `{ x, y }` with integer fields: a snake segment, the food, or a
direction delta. -/
structure Cell where
  x : Int
  y : Int
  deriving DecidableEq, Repr

/-- The four values of the `gameState` string. -/
inductive GameState where
  | menu
  | playing
  | paused
  | gameOver
  deriving DecidableEq, Repr

/-- One element of the `particles` array. -/
structure Particle where
  id : Int
  x : ℚ
  y : ℚ
  vx : ℚ
  vy : ℚ
  size : ℚ
  alpha : ℚ
  color : String
  life : Int
  deriving DecidableEq

/-- The `useState` cells of `App` that the simulation reads and writes. -/
structure State where
  gameState : GameState
  score : Int
  snake : List Cell
  food : Cell
  direction : Cell
  gameSpeed : Int
  particles : List Particle
  deriving DecidableEq

/-- The values the host returns during one handler call: `now` is
`Date.now()`, `rnd k` is the `k`-th `Math.random()` of `createParticles`, and
`draws` lists, per iteration of the loop in `generateFood`, the two
`Math.random()` values of that iteration. -/
structure Env where
  now : Int
  rnd : Nat → ℚ
  draws : List (ℚ × ℚ)

/-- The initial values of the `useState` cells. -/
def initialState : State :=
  { gameState := GameState.menu
    score := 0
    snake := [⟨10, 10⟩]
    food := ⟨15, 15⟩
    direction := ⟨1, 0⟩
    gameSpeed := 150
    particles := [] }

/-! ## Food -/

/-- The object built in the body of the loop of `generateFood` from the two
random numbers of one iteration. -/
def sampleCell (d : ℚ × ℚ) : Cell :=
  ⟨Int.floor (d.1 * (TILE_COUNT : ℚ)), Int.floor (d.2 * (TILE_COUNT : ℚ))⟩

/-- The loop condition of `generateFood`:
`snake.some(segment => segment.x === newFood.x && segment.y === newFood.y)`. -/
def hitsSnake (snake : List Cell) (c : Cell) : Bool :=
  snake.any (fun segment => decide (segment.x = c.x) && decide (segment.y = c.y))

/-- Function `generateFood`: sample until the sampled cell is on no segment of `snake`;
`none` when every supplied sample was rejected. -/
def generateFood (snake : List Cell) : List (ℚ × ℚ) → Option Cell
  | [] => none
  | d :: rest =>
    if hitsSnake snake (sampleCell d) then generateFood snake rest
    else some (sampleCell d)

/-! ## Particles -/

/-- The array `newParticles` built by `createParticles(x, y)`. -/
def createParticles (e : Env) (x y : Int) : List Particle :=
  let centerX : ℚ := ((x * GRID_SIZE : Int) : ℚ) + (GRID_SIZE : ℚ) / 2
  let centerY : ℚ := ((y * GRID_SIZE : Int) : ℚ) + (GRID_SIZE : ℚ) / 2
  (List.range 12).map fun (i : Nat) =>
    { id := e.now + (i : Int)
      x := centerX
      y := centerY
      vx := (e.rnd (4 * i) - 1 / 2) * 10
      vy := (e.rnd (4 * i + 1) - 1 / 2) * 10
      size := e.rnd (4 * i + 2) * 6 + 3
      alpha := 1
      color := if e.rnd (4 * i + 3) > 1 / 2 then "#ff69b4" else "#ffff00"
      life := 40 }

/-- The object that `updateParticles` maps one particle to. -/
def stepParticle (p : Particle) : Particle :=
  { p with
    x := p.x + p.vx
    y := p.y + p.vy
    alpha := p.alpha - 1 / (p.life : ℚ)
    life := p.life - 1 }

/-- The updater of `updateParticles`: map, then keep the particles with
`life > 0`. -/
def updateParticles (prev : List Particle) : List Particle :=
  (prev.map stepParticle).filter fun particle => decide (particle.life > 0)

/-! ## Session control -/

/-- Handler `startGame`: the seven setters, the food taken from `generateFood()`. -/
def startGame (s : State) (e : Env) : Option State :=
  match generateFood s.snake e.draws with
  | none => none
  | some f =>
    some
      { gameState := GameState.playing
        score := 0
        snake := [⟨10, 10⟩]
        direction := ⟨1, 0⟩
        food := f
        particles := []
        gameSpeed := 150 }

/-- Handler `resetGame`: the seven setters, the food taken from `generateFood()`. -/
def resetGame (s : State) (e : Env) : Option State :=
  match generateFood s.snake e.draws with
  | none => none
  | some f =>
    some
      { gameState := GameState.menu
        score := 0
        snake := [⟨10, 10⟩]
        direction := ⟨1, 0⟩
        food := f
        particles := []
        gameSpeed := 150 }

/-- Handler `togglePause`:
`setGameState(prev => prev === 'playing' ? 'paused' : 'playing')`. -/
def togglePause (s : State) : State :=
  { s with
    gameState :=
      if s.gameState = GameState.playing then GameState.paused else GameState.playing }

/-- The pause button of the control bar: `onClick={togglePause}` with
`disabled={gameState === 'menu'}`. -/
def clickPauseButton (s : State) : State :=
  if s.gameState = GameState.menu then s else togglePause s

/-! ## The tick -/

/-- The cell `head` computed at the start of the updater in `gameLoop`. -/
def newHead (h : Cell) (direction : Cell) : Cell :=
  ⟨h.x + direction.x, h.y + direction.y⟩

/-- The wall test of `gameLoop`. -/
def hitsWall (head : Cell) : Bool :=
  decide (head.x < 0) || decide (head.x ≥ TILE_COUNT) ||
    decide (head.y < 0) || decide (head.y ≥ TILE_COUNT)

/-- Callback `gameLoop`: one tick.  The calls made inside the `setSnake` updater take
effect in the order of the source text, followed by `updateParticles()`. -/
def gameLoop (s : State) (e : Env) : Option State :=
  if s.gameState ≠ GameState.playing then some s
  else
    match s.snake with
    | [] => none
    | h :: _ =>
      let head := newHead h s.direction
      if hitsWall head then
        some { s with gameState := GameState.gameOver, particles := updateParticles s.particles }
      else if hitsSnake s.snake head then
        some { s with gameState := GameState.gameOver, particles := updateParticles s.particles }
      else if head.x = s.food.x ∧ head.y = s.food.y then
        match generateFood s.snake e.draws with
        | none => none
        | some f =>
          some
            { s with
              snake := head :: s.snake
              score := s.score + 10
              particles := updateParticles (s.particles ++ createParticles e head.x head.y)
              food := f
              gameSpeed := max 80 (s.gameSpeed - 3) }
      else
        some { s with snake := head :: s.snake.dropLast, particles := updateParticles s.particles }

/-! ## Keyboard -/

/-- Handler `handleKeyPress` on a `keydown` event whose `e.code` is `code`. -/
def handleKeyPress (s : State) (code : String) (e : Env) : Option State :=
  if s.gameState = GameState.menu ∧ code = "Space" then startGame s e
  else if s.gameState ≠ GameState.playing then some s
  else if code = "ArrowUp" ∨ code = "KeyW" then
    if s.direction.y ≠ 1 then some { s with direction := ⟨0, -1⟩ } else some s
  else if code = "ArrowDown" ∨ code = "KeyS" then
    if s.direction.y ≠ -1 then some { s with direction := ⟨0, 1⟩ } else some s
  else if code = "ArrowLeft" ∨ code = "KeyA" then
    if s.direction.x ≠ 1 then some { s with direction := ⟨-1, 0⟩ } else some s
  else if code = "ArrowRight" ∨ code = "KeyD" then
    if s.direction.x ≠ -1 then some { s with direction := ⟨1, 0⟩ } else some s
  else if code = "Space" then some (togglePause s)
  else some s

/-! ## Runs -/

/-- The events of a session: the two reset handlers, the pause toggle, a key
press, and a tick of the interval timer. -/
inductive Event where
  | start (e : Env)
  | reset (e : Env)
  | pause
  | key (code : String) (e : Env)
  | tick (e : Env)

/-- The handler each event runs. -/
def step (s : State) : Event → Option State
  | Event.start e => startGame s e
  | Event.reset e => resetGame s e
  | Event.pause => some (togglePause s)
  | Event.key code e => handleKeyPress s code e
  | Event.tick e => gameLoop s e

/-- The state after a sequence of events, each handler seeing the state the
previous one left. -/
def run (s : State) : List Event → Option State
  | [] => some s
  | ev :: rest =>
    match step s ev with
    | none => none
    | some s' => run s' rest

/-- The states some sequence of events leads to from `initialState`. -/
def Reachable (s : State) : Prop :=
  ∃ evs : List Event, run initialState evs = some s

/-- An environment with the given food samples, clock 0 and every particle
random number 0. -/
def envOf (draws : List (ℚ × ℚ)) : Env :=
  { now := 0, rnd := fun _ => 0, draws := draws }

/-- The sample pair whose sampled cell is `c` (for `c` on the grid both numbers
lie in `[0, 1)`, as `Math.random()` values do). -/
def drawFor (c : Cell) : ℚ × ℚ :=
  ((c.x : ℚ) / 20, (c.y : ℚ) / 20)

/-! ## Concrete sessions -/

/-- The session right after `startGame`, the food sampled at (15,15). -/
def playingStart : State :=
  { initialState with gameState := GameState.playing }

/-- The session right after `startGame`, the food sampled at (11,10), the cell
in front of the head. -/
def foodAhead : State :=
  { playingStart with food := ⟨11, 10⟩ }

/-- A playing session whose snake of four cells is coiled in a square, its
head at (5,5) moving right towards its own last cell (6,5). -/
def coiled : State :=
  { playingStart with
    snake := [⟨5, 5⟩, ⟨5, 6⟩, ⟨6, 6⟩, ⟨6, 5⟩]
    score := 30
    gameSpeed := 141 }

/-- The session after `startGame` put the food at (11,10) and one tick ate it
(the next food sampled at (3,4)). -/
def grown : State :=
  { gameState := GameState.playing
    score := 10
    snake := [⟨11, 10⟩, ⟨10, 10⟩]
    food := ⟨3, 4⟩
    direction := ⟨1, 0⟩
    gameSpeed := 147
    particles := updateParticles (createParticles (envOf [drawFor ⟨3, 4⟩]) 11 10) }

/-- The events that lead from the initial state to `grown`. -/
def growRun : List Event :=
  [Event.start (envOf [drawFor ⟨11, 10⟩]), Event.tick (envOf [drawFor ⟨3, 4⟩])]

/-- The session after `startGame` and ten ticks straight to the right: the
snake died at the right wall. -/
def dead : State :=
  { playingStart with gameState := GameState.gameOver, snake := [⟨19, 10⟩] }

/-- The events that lead from the initial state to `dead`. -/
def deadRun : List Event :=
  Event.start (envOf [drawFor ⟨15, 15⟩]) :: List.replicate 10 (Event.tick (envOf []))

/-- The first particle of the burst `createParticles(11, 10)` when the clock
reads 0 and every `Math.random()` returns 0. -/
def sparkle : Particle :=
  { id := 0
    x := 230
    y := 210
    vx := -5
    vy := -5
    size := 3
    alpha := 1
    color := "#ffff00"
    life := 40 }

/-! ## A session that fills the board -/

/-- The session after `startGame` put the food at (1,0) and the one-cell snake
slid down one cell, left to column 0 and up to the corner (0,0). -/
def slid : State :=
  { playingStart with snake := [⟨0, 0⟩], food := ⟨1, 0⟩, direction := ⟨0, -1⟩ }

/-- The events that lead from the initial state to `slid`. -/
def slideRun : List Event :=
  Event.start (envOf [drawFor ⟨1, 0⟩]) ::
    Event.key "ArrowDown" (envOf []) :: Event.tick (envOf []) ::
    Event.key "ArrowLeft" (envOf []) :: (List.replicate 10 (Event.tick (envOf [])) ++
    Event.key "ArrowUp" (envOf []) :: List.replicate 11 (Event.tick (envOf [])))

/-- The `k`-th cell of the path that sweeps the grid row by row from (0,0):
even rows from left to right, odd rows from right to left. -/
def lane (k : Nat) : Cell :=
  ⟨((if (k / 20) % 2 = 0 then k % 20 else 19 - k % 20 : Nat) : Int), ((k / 20 : Nat) : Int)⟩

/-- The direction of the step from `lane k` to `lane (k + 1)`. -/
def dirAt (k : Nat) : Cell :=
  if (k + 1) % 20 = 0 then ⟨0, 1⟩ else if (k / 20) % 2 = 0 then ⟨1, 0⟩ else ⟨-1, 0⟩

/-- The arrow key that asks for a direction. -/
def keyOf (d : Cell) : String :=
  if d = ⟨1, 0⟩ then "ArrowRight"
  else if d = ⟨-1, 0⟩ then "ArrowLeft"
  else if d = ⟨0, 1⟩ then "ArrowDown"
  else "ArrowUp"

/-- The snake that has eaten its way along the first `n` cells of the path,
head first. -/
def laneBody : Nat → List Cell
  | 0 => []
  | n + 1 => lane n :: laneBody n

/-- The events of the `j`-th meal on the path: the arrow key for the step, then
a tick that eats and samples the next food on the cell after the next (on the
last cell of the path once that is reached). -/
def mealEvents (j : Nat) : List Event :=
  [Event.key (keyOf (dirAt j)) (envOf []),
    Event.tick (envOf [drawFor (lane (min (j + 2) 399))])]

/-- The events of the first `n` meals. -/
def feedRun : Nat → List Event
  | 0 => []
  | n + 1 => feedRun n ++ mealEvents n

/-- The events of a session that fills the board and then dies: the slide to
the corner, 399 meals along the path, and one more tick. -/
def fullRun : List Event :=
  slideRun ++ (feedRun 399 ++ [Event.tick (envOf [])])

/-! ## Vocabulary of the statements -/

/-- The exact opposite of a direction delta. -/
def opposite (d : Cell) : Cell :=
  ⟨-d.x, -d.y⟩

/-- The deltas of Up, Down, Left and Right (y grows downwards on the canvas). -/
def unitDirections : List Cell :=
  [⟨0, -1⟩, ⟨0, 1⟩, ⟨-1, 0⟩, ⟨1, 0⟩]

/-- The direction each movement key of `handleKeyPress` asks for. -/
def keyBindings : List (String × Cell) :=
  [("ArrowUp", ⟨0, -1⟩), ("KeyW", ⟨0, -1⟩), ("ArrowDown", ⟨0, 1⟩), ("KeyS", ⟨0, 1⟩),
    ("ArrowLeft", ⟨-1, 0⟩), ("KeyA", ⟨-1, 0⟩), ("ArrowRight", ⟨1, 0⟩), ("KeyD", ⟨1, 0⟩)]

/-- The events whose handler runs `startGame` or `resetGame`: the two handlers
themselves and, in `menu`, the Space key, on which `handleKeyPress` calls
`startGame()`. -/
def callsReset (s : State) : Event → Prop
  | Event.start _ => True
  | Event.reset _ => True
  | Event.pause => False
  | Event.key code _ => s.gameState = GameState.menu ∧ code = "Space"
  | Event.tick _ => False

/-- Samples as `Math.random()` returns them: every number in `[0, 1)`. -/
def legalDraws (draws : List (ℚ × ℚ)) : Prop :=
  ∀ d ∈ draws, (0 ≤ d.1 ∧ d.1 < 1) ∧ (0 ≤ d.2 ∧ d.2 < 1)

/-- A cell with both coordinates in `[0, TILE_COUNT)`. -/
def inGrid (c : Cell) : Prop :=
  0 ≤ c.x ∧ c.x < TILE_COUNT ∧ 0 ≤ c.y ∧ c.y < TILE_COUNT

instance (c : Cell) : Decidable (inGrid c) := by
  unfold inGrid; infer_instance

/-! ## Basic facts -/

theorem TILE_COUNT_eq : TILE_COUNT = 20 := by decide

theorem hitsSnake_iff (snake : List Cell) (c : Cell) :
    hitsSnake snake c = true ↔ c ∈ snake := by
  unfold hitsSnake
  rw [List.any_eq_true]
  constructor
  · rintro ⟨seg, hmem, hxy⟩
    have hseg : seg = c := by
      cases seg; cases c
      simpa using hxy
    exact hseg ▸ hmem
  · intro hmem
    exact ⟨c, hmem, by simp⟩

theorem hitsSnake_eq_false_iff (snake : List Cell) (c : Cell) :
    hitsSnake snake c = false ↔ c ∉ snake := by
  rw [← hitsSnake_iff, Bool.not_eq_true]

theorem hitsWall_eq_false_iff (c : Cell) : hitsWall c = false ↔ inGrid c := by
  unfold hitsWall inGrid
  simp only [Bool.or_eq_false_iff, decide_eq_false_iff_not, not_lt, ge_iff_le, not_le]
  tauto

theorem hitsWall_iff (c : Cell) :
    hitsWall c = true ↔ (c.x < 0 ∨ c.x ≥ TILE_COUNT ∨ c.y < 0 ∨ c.y ≥ TILE_COUNT) := by
  unfold hitsWall
  simp only [Bool.or_eq_true, decide_eq_true_eq]
  tauto

theorem sampleCell_drawFor (c : Cell) : sampleCell (drawFor c) = c := by
  cases c with
  | mk x y =>
    have h20 : ((TILE_COUNT : Int) : ℚ) = 20 := by rw [TILE_COUNT_eq]; norm_num
    simp only [sampleCell, drawFor, h20]
    rw [div_mul_cancel₀ _ (by norm_num : (20 : ℚ) ≠ 0),
      div_mul_cancel₀ _ (by norm_num : (20 : ℚ) ≠ 0), Int.floor_intCast, Int.floor_intCast]

/-- The cell `generateFood` returns lies on no segment of the snake it was
given. -/
theorem generateFood_not_mem (snake : List Cell) (draws : List (ℚ × ℚ)) (f : Cell)
    (h : generateFood snake draws = some f) : f ∉ snake := by
  induction draws with
  | nil => simp [generateFood] at h
  | cons d rest ih =>
    unfold generateFood at h
    by_cases hd : hitsSnake snake (sampleCell d) = true
    · rw [if_pos hd] at h
      exact ih h
    · rw [if_neg hd] at h
      cases h
      rw [← hitsSnake_iff]
      exact hd

/-- The loop of `generateFood` ends exactly when some sample misses the
snake. -/
theorem generateFood_isSome_iff (snake : List Cell) (draws : List (ℚ × ℚ)) :
    (∃ f, generateFood snake draws = some f) ↔ ∃ d ∈ draws, sampleCell d ∉ snake := by
  induction draws with
  | nil => simp [generateFood]
  | cons d rest ih =>
    unfold generateFood
    by_cases hd : hitsSnake snake (sampleCell d) = true
    · rw [if_pos hd, ih]
      have hmem : sampleCell d ∈ snake := (hitsSnake_iff _ _).1 hd
      constructor
      · rintro ⟨d', hd', hn⟩
        exact ⟨d', List.mem_cons_of_mem _ hd', hn⟩
      · rintro ⟨d', hd', hn⟩
        rcases List.mem_cons.1 hd' with rfl | hr
        · exact absurd hmem hn
        · exact ⟨d', hr, hn⟩
    · rw [if_neg hd]
      have hnm : sampleCell d ∉ snake := fun hm => hd ((hitsSnake_iff _ _).2 hm)
      exact ⟨fun _ => ⟨d, List.mem_cons_self _ _, hnm⟩, fun _ => ⟨_, rfl⟩⟩

/-- A single sample that misses the snake is returned. -/
theorem generateFood_drawFor (snake : List Cell) (c : Cell) (rest : List (ℚ × ℚ))
    (hc : c ∉ snake) : generateFood snake (drawFor c :: rest) = some c := by
  unfold generateFood
  rw [sampleCell_drawFor, if_neg]
  intro h
  exact hc ((hitsSnake_iff _ _).1 h)

/-- The three outcomes of a tick of a playing session with snake `h :: t`. -/
theorem gameLoop_playing (s : State) (e : Env) (h : Cell) (t : List Cell)
    (hplay : s.gameState = GameState.playing) (hsnake : s.snake = h :: t) :
    gameLoop s e =
      if hitsWall (newHead h s.direction) = true ∨
          hitsSnake s.snake (newHead h s.direction) = true then
        some { s with gameState := GameState.gameOver, particles := updateParticles s.particles }
      else if newHead h s.direction = s.food then
        (generateFood s.snake e.draws).map fun f =>
          { s with
            snake := newHead h s.direction :: s.snake
            score := s.score + 10
            particles :=
              updateParticles (s.particles ++
                createParticles e (newHead h s.direction).x (newHead h s.direction).y)
            food := f
            gameSpeed := max 80 (s.gameSpeed - 3) }
      else
        some { s with
          snake := newHead h s.direction :: s.snake.dropLast
          particles := updateParticles s.particles } := by
  obtain ⟨gs, sc, sn, fd, dir, sp, ps⟩ := s
  simp only at hplay hsnake
  subst hplay hsnake
  unfold gameLoop
  simp only [ne_eq, not_true_eq_false, if_false]
  generalize newHead h dir = nh
  have hfood : (nh = fd) ↔ (nh.x = fd.x ∧ nh.y = fd.y) := by
    cases fd; cases nh; simp
  cases hw : hitsWall nh
  · cases hs : hitsSnake (h :: t) nh
    · by_cases hf : nh = fd
      · have hf' := hfood.1 hf
        simp only [hf', and_self, if_true, Bool.false_eq_true, or_self, if_false, hf]
        cases generateFood (h :: t) e.draws <;> rfl
      · have hf' : ¬(nh.x = fd.x ∧ nh.y = fd.y) := fun hh => hf (hfood.2 hh)
        simp only [hf', hf, if_false, Bool.false_eq_true, or_self]
    · simp
  · simp

/-! ## The tick: sliding, eating, dying -/

/-- C1. A tick of a playing session whose next head cell is on the grid, on no
segment of the snake and not the food cell returns the snake with the new head
in front and the last cell removed: the length, the score, the food and the
tick interval are as before, and the session keeps playing. -/
theorem tick_slides (s : State) (e : Env) (h : Cell) (t : List Cell)
    (hplay : s.gameState = GameState.playing) (hsnake : s.snake = h :: t)
    (hgrid : inGrid (newHead h s.direction))
    (hself : newHead h s.direction ∉ s.snake)
    (hfood : newHead h s.direction ≠ s.food) :
    ∃ s', gameLoop s e = some s' ∧
      s'.snake = newHead h s.direction :: s.snake.dropLast ∧
      s'.snake.length = s.snake.length ∧
      s'.score = s.score ∧ s'.food = s.food ∧ s'.gameSpeed = s.gameSpeed ∧
      s'.gameState = GameState.playing ∧ s'.direction = s.direction := by
  have hw : ¬(hitsWall (newHead h s.direction) = true ∨
      hitsSnake s.snake (newHead h s.direction) = true) := by
    rintro (hw | hs)
    · rw [(hitsWall_eq_false_iff _).2 hgrid] at hw
      exact Bool.false_ne_true hw
    · exact hself ((hitsSnake_iff _ _).1 hs)
  rw [gameLoop_playing s e h t hplay hsnake, if_neg hw, if_neg hfood]
  refine ⟨_, rfl, rfl, ?_, rfl, rfl, rfl, hplay, rfl⟩
  simp [hsnake]

/-- The start session: snake [(10,10)] heading right, food at (15,15), becomes
[(11,10)] with score, food and interval untouched. -/
theorem tick_slides_witness :
    playingStart.gameState = GameState.playing ∧ playingStart.snake = [⟨10, 10⟩] ∧
      playingStart.direction = ⟨1, 0⟩ ∧ playingStart.food ≠ ⟨11, 10⟩ ∧
      ∃ s', gameLoop playingStart (envOf []) = some s' ∧ s'.snake = [⟨11, 10⟩] ∧
        s'.snake.length = 1 ∧ s'.score = 0 ∧ s'.food = ⟨15, 15⟩ ∧ s'.gameSpeed = 150 := by
  refine ⟨rfl, rfl, rfl, by decide, ?_⟩
  obtain ⟨s', h1, h2, h3, h4, h5, h6, _, _⟩ :=
    tick_slides playingStart (envOf []) ⟨10, 10⟩ [] rfl rfl (by decide) (by decide) (by decide)
  exact ⟨s', h1, h2, h3, h4, h5, h6⟩

/-- C2. A tick of a playing session whose next head cell is on the grid, on no
segment of the snake and equal to the food cell returns (once the food sampling
draws a cell off the snake) the snake with the new head in front and every old
cell kept, the score raised by 10 and the tick interval `max 80 (interval - 3)`. -/
theorem tick_eats (s : State) (e : Env) (h : Cell) (t : List Cell)
    (hplay : s.gameState = GameState.playing) (hsnake : s.snake = h :: t)
    (hgrid : inGrid (newHead h s.direction))
    (hself : newHead h s.direction ∉ s.snake)
    (hfood : newHead h s.direction = s.food)
    (hdraw : ∃ d ∈ e.draws, sampleCell d ∉ s.snake) :
    ∃ s', gameLoop s e = some s' ∧
      s'.snake = newHead h s.direction :: s.snake ∧
      s'.snake.length = s.snake.length + 1 ∧
      s'.score = s.score + 10 ∧
      s'.gameSpeed = max 80 (s.gameSpeed - 3) ∧
      s'.gameState = GameState.playing := by
  have hw : ¬(hitsWall (newHead h s.direction) = true ∨
      hitsSnake s.snake (newHead h s.direction) = true) := by
    rintro (hw | hs)
    · rw [(hitsWall_eq_false_iff _).2 hgrid] at hw
      exact Bool.false_ne_true hw
    · exact hself ((hitsSnake_iff _ _).1 hs)
  obtain ⟨f, hf⟩ := (generateFood_isSome_iff s.snake e.draws).2 hdraw
  rw [gameLoop_playing s e h t hplay hsnake, if_neg hw, if_pos hfood, hf]
  exact ⟨_, rfl, rfl, rfl, rfl, rfl, hplay⟩

/-- The start session with the food at (11,10): the snake grows to
[(11,10), (10,10)], the score becomes 10 and the interval 147. -/
theorem tick_eats_witness :
    foodAhead.gameState = GameState.playing ∧ foodAhead.snake = [⟨10, 10⟩] ∧
      newHead ⟨10, 10⟩ foodAhead.direction = foodAhead.food ∧
      ∃ s', gameLoop foodAhead (envOf [drawFor ⟨3, 4⟩]) = some s' ∧
        s'.snake = [⟨11, 10⟩, ⟨10, 10⟩] ∧ s'.snake.length = 2 ∧ s'.score = 10 ∧
        s'.gameSpeed = 147 := by
  refine ⟨rfl, rfl, by decide, ?_⟩
  obtain ⟨s', h1, h2, h3, h4, h5, _⟩ :=
    tick_eats foodAhead (envOf [drawFor ⟨3, 4⟩]) ⟨10, 10⟩ [] rfl rfl (by decide) (by decide)
      (by decide)
      ⟨drawFor ⟨3, 4⟩, List.mem_singleton.2 rfl, by rw [sampleCell_drawFor]; decide⟩
  exact ⟨s', h1, h2, h3, h4, h5⟩

/-- C3. A tick of a playing session ends in `gameOver` exactly when the next
head cell has a coordinate below 0 or at least `TILE_COUNT`, or lies on a
segment of the snake as it is before the move (its last cell included); the
tick then returns the snake and the score as they were. -/
theorem tick_gameOver_iff (s : State) (e : Env) (h : Cell) (t : List Cell)
    (hplay : s.gameState = GameState.playing) (hsnake : s.snake = h :: t) :
    ((∃ s', gameLoop s e = some s' ∧ s'.gameState = GameState.gameOver) ↔
      ((newHead h s.direction).x < 0 ∨ (newHead h s.direction).x ≥ TILE_COUNT ∨
        (newHead h s.direction).y < 0 ∨ (newHead h s.direction).y ≥ TILE_COUNT) ∨
      newHead h s.direction ∈ s.snake) ∧
    ((((newHead h s.direction).x < 0 ∨ (newHead h s.direction).x ≥ TILE_COUNT ∨
        (newHead h s.direction).y < 0 ∨ (newHead h s.direction).y ≥ TILE_COUNT) ∨
      newHead h s.direction ∈ s.snake) →
      ∃ s', gameLoop s e = some s' ∧ s'.gameState = GameState.gameOver ∧
        s'.snake = s.snake ∧ s'.score = s.score) := by
  rw [← hitsWall_iff, ← hitsSnake_iff, gameLoop_playing s e h t hplay hsnake]
  have hback : (hitsWall (newHead h s.direction) = true ∨
      hitsSnake s.snake (newHead h s.direction) = true) →
      ∃ s', (some { s with gameState := GameState.gameOver,
                           particles := updateParticles s.particles } : Option State) = some s' ∧
        s'.gameState = GameState.gameOver ∧ s'.snake = s.snake ∧ s'.score = s.score :=
    fun _ => ⟨_, rfl, rfl, rfl, rfl⟩
  by_cases hc : hitsWall (newHead h s.direction) = true ∨
      hitsSnake s.snake (newHead h s.direction) = true
  · rw [if_pos hc]
    refine ⟨⟨fun _ => hc, fun _ => ?_⟩, hback⟩
    obtain ⟨s', h1, h2, _⟩ := hback hc
    exact ⟨s', h1, h2⟩
  · rw [if_neg hc]
    refine ⟨⟨?_, fun hc' => absurd hc' hc⟩, fun hc' => absurd hc' hc⟩
    rintro ⟨s', hs', hover⟩
    exfalso
    by_cases hf : newHead h s.direction = s.food
    · rw [if_pos hf] at hs'
      cases hg : generateFood s.snake e.draws with
      | none => rw [hg] at hs'; cases hs'
      | some f =>
        rw [hg] at hs'
        cases hs'
        rw [hplay] at hover
        cases hover
    · rw [if_neg hf] at hs'
      cases hs'
      rw [hplay] at hover
      cases hover

/-- The coiled snake steps onto its own last cell, the one a slide would have
vacated: the tick ends the game and returns snake and score as they were. -/
theorem tick_gameOver_iff_witness :
    coiled.gameState = GameState.playing ∧
      newHead ⟨5, 5⟩ coiled.direction = ⟨6, 5⟩ ∧ coiled.snake.getLast? = some ⟨6, 5⟩ ∧
      ∃ s', gameLoop coiled (envOf []) = some s' ∧ s'.gameState = GameState.gameOver ∧
        s'.snake = coiled.snake ∧ s'.score = coiled.score :=
  ⟨rfl, by decide, by decide,
    (tick_gameOver_iff coiled (envOf []) ⟨5, 5⟩ [⟨5, 6⟩, ⟨6, 6⟩, ⟨6, 5⟩] rfl rfl).2
      (Or.inr (by decide))⟩

/-! ## Invariants of runs -/

/-- A property that holds at the start of a run and that every handler
preserves holds at its end. -/
theorem run_preserves (P : State → Prop)
    (hstep : ∀ s ev s', P s → step s ev = some s' → P s')
    (evs : List Event) : ∀ s s', P s → run s evs = some s' → P s' := by
  induction evs with
  | nil =>
    intro s s' hP hrun
    simp only [run, Option.some.injEq] at hrun
    exact hrun ▸ hP
  | cons ev rest ih =>
    intro s s' hP hrun
    unfold run at hrun
    cases hs : step s ev with
    | none => rw [hs] at hrun; cases hrun
    | some s1 =>
      rw [hs] at hrun
      exact ih s1 s' (hstep s ev s1 hP hs) hrun

/-- The snake a reset handler leaves. -/
theorem startGame_snake (s : State) (e : Env) (s' : State) (h : startGame s e = some s') :
    s'.snake = [⟨10, 10⟩] := by
  unfold startGame at h
  cases hg : generateFood s.snake e.draws with
  | none => rw [hg] at h; cases h
  | some f => rw [hg] at h; cases h; rfl

theorem resetGame_snake (s : State) (e : Env) (s' : State) (h : resetGame s e = some s') :
    s'.snake = [⟨10, 10⟩] := by
  unfold resetGame at h
  cases hg : generateFood s.snake e.draws with
  | none => rw [hg] at h; cases h
  | some f => rw [hg] at h; cases h; rfl

/-- A key press either runs `startGame` or leaves the snake as it is. -/
theorem handleKeyPress_snake (s : State) (code : String) (e : Env) (s' : State)
    (h : handleKeyPress s code e = some s') :
    s'.snake = [⟨10, 10⟩] ∨ s'.snake = s.snake := by
  unfold handleKeyPress at h
  split_ifs at h
  · exact Or.inl (startGame_snake s e s' h)
  all_goals
    simp only [Option.some.injEq] at h
    subst h
    exact Or.inr rfl

/-- The snake a tick returns: the old one, or the new head (a cell off the old
snake) in front of the old one or of the old one without its last cell. -/
theorem gameLoop_snake (s : State) (e : Env) (s' : State) (h : gameLoop s e = some s') :
    s'.snake = s.snake ∨
      ∃ nh, nh ∉ s.snake ∧ (s'.snake = nh :: s.snake ∨ s'.snake = nh :: s.snake.dropLast) := by
  by_cases hplay : s.gameState = GameState.playing
  · cases hsnake : s.snake with
    | nil =>
      unfold gameLoop at h
      simp [hplay, hsnake] at h
    | cons c t =>
      rw [gameLoop_playing s e c t hplay hsnake] at h
      split_ifs at h with hc hf
      · cases h
        exact Or.inl hsnake
      · cases hg : generateFood s.snake e.draws with
        | none => rw [hg] at h; cases h
        | some f =>
          rw [hg] at h
          cases h
          refine Or.inr ⟨newHead c s.direction, ?_, Or.inl (by simp [hsnake])⟩
          rw [← hsnake]
          exact fun hm => hc (Or.inr ((hitsSnake_iff _ _).2 hm))
      · cases h
        refine Or.inr ⟨newHead c s.direction, ?_, Or.inr (by simp [hsnake])⟩
        rw [← hsnake]
        exact fun hm => hc (Or.inr ((hitsSnake_iff _ _).2 hm))
  · unfold gameLoop at h
    rw [if_pos hplay] at h
    cases h
    exact Or.inl rfl

/-- Every handler keeps the snake free of repeated cells. -/
theorem step_snake_nodup (s : State) (ev : Event) (s' : State)
    (hP : s.snake.Nodup) (h : step s ev = some s') : s'.snake.Nodup := by
  have hone : ([⟨10, 10⟩] : List Cell).Nodup := List.nodup_singleton _
  cases ev with
  | start e => rw [startGame_snake s e s' h]; exact hone
  | reset e => rw [resetGame_snake s e s' h]; exact hone
  | pause =>
    simp only [step, Option.some.injEq] at h
    subst h
    exact hP
  | key code e =>
    rcases handleKeyPress_snake s code e s' h with h1 | h1
    · rw [h1]; exact hone
    · rw [h1]; exact hP
  | tick e =>
    rcases gameLoop_snake s e s' h with h1 | ⟨nh, hnh, h1 | h1⟩
    · rw [h1]; exact hP
    · rw [h1]; exact List.nodup_cons.2 ⟨hnh, hP⟩
    · rw [h1]
      have hsub : s.snake.dropLast.Sublist s.snake := List.dropLast_sublist _
      exact List.nodup_cons.2 ⟨fun hm => hnh (hsub.subset hm), hP.sublist hsub⟩

/-- Every handler keeps the snake non-empty, so no tick of a run reads the head
of an empty array. -/
theorem step_snake_ne_nil (s : State) (ev : Event) (s' : State)
    (hP : s.snake ≠ []) (h : step s ev = some s') : s'.snake ≠ [] := by
  cases ev with
  | start e => rw [startGame_snake s e s' h]; simp
  | reset e => rw [resetGame_snake s e s' h]; simp
  | pause =>
    simp only [step, Option.some.injEq] at h
    subst h
    exact hP
  | key code e =>
    rcases handleKeyPress_snake s code e s' h with h1 | h1
    · rw [h1]; simp
    · rw [h1]; exact hP
  | tick e =>
    rcases gameLoop_snake s e s' h with h1 | ⟨nh, _, h1 | h1⟩
    · rw [h1]; exact hP
    · rw [h1]; simp
    · rw [h1]; simp

theorem snake_ne_nil_of_reachable (s : State) (h : Reachable s) : s.snake ≠ [] := by
  obtain ⟨evs, hrun⟩ := h
  exact run_preserves (fun s => s.snake ≠ []) step_snake_ne_nil evs initialState s
    (by simp [initialState]) hrun

/-- C4. In every state that a sequence of `startGame`, `resetGame`,
`togglePause`, key presses and ticks leads to from the initial state, the cells
of the snake are pairwise distinct. -/
theorem snake_nodup_of_reachable (s : State) (h : Reachable s) : s.snake.Nodup := by
  obtain ⟨evs, hrun⟩ := h
  exact run_preserves (fun s => s.snake.Nodup) step_snake_nodup evs initialState s
    (List.nodup_singleton _) hrun

/-! ## Concrete runs -/

/-- The result of `startGame` when the first sample misses the snake. -/
theorem startGame_drawFor (s : State) (c : Cell) (rest : List (ℚ × ℚ)) (hc : c ∉ s.snake) :
    startGame s (envOf (drawFor c :: rest)) =
      some
        { gameState := GameState.playing
          score := 0
          snake := [⟨10, 10⟩]
          direction := ⟨1, 0⟩
          food := c
          particles := []
          gameSpeed := 150 } := by
  unfold startGame
  simp only [envOf]
  rw [generateFood_drawFor s.snake c rest hc]

/-- The result of `resetGame` when the first sample misses the snake. -/
theorem resetGame_drawFor (s : State) (c : Cell) (rest : List (ℚ × ℚ)) (hc : c ∉ s.snake) :
    resetGame s (envOf (drawFor c :: rest)) =
      some
        { gameState := GameState.menu
          score := 0
          snake := [⟨10, 10⟩]
          direction := ⟨1, 0⟩
          food := c
          particles := []
          gameSpeed := 150 } := by
  unfold resetGame
  simp only [envOf]
  rw [generateFood_drawFor s.snake c rest hc]

theorem startGame_foodAhead :
    startGame initialState (envOf [drawFor ⟨11, 10⟩]) = some foodAhead :=
  startGame_drawFor initialState ⟨11, 10⟩ [] (by decide)

theorem startGame_playingStart :
    startGame initialState (envOf [drawFor ⟨15, 15⟩]) = some playingStart :=
  startGame_drawFor initialState ⟨15, 15⟩ [] (by decide)

theorem gameLoop_foodAhead :
    gameLoop foodAhead (envOf [drawFor ⟨3, 4⟩]) = some grown := by
  rw [gameLoop_playing foodAhead _ ⟨10, 10⟩ [] rfl rfl, if_neg (by decide), if_pos (by decide)]
  simp only [envOf]
  rw [generateFood_drawFor foodAhead.snake ⟨3, 4⟩ [] (by decide)]
  rfl

theorem run_growRun : run initialState growRun = some grown := by
  simp only [growRun, run, step, startGame_foodAhead, gameLoop_foodAhead]

theorem reachable_grown : Reachable grown := ⟨growRun, run_growRun⟩

theorem run_ticks_dead :
    run playingStart (List.replicate 10 (Event.tick (envOf []))) = some dead := by
  decide

theorem run_deadRun : run initialState deadRun = some dead := by
  simp only [deadRun, run, step, startGame_playingStart]
  exact run_ticks_dead

theorem reachable_dead : Reachable dead := ⟨deadRun, run_deadRun⟩

theorem reachable_foodAhead : Reachable foodAhead :=
  ⟨[Event.start (envOf [drawFor ⟨11, 10⟩])], by simp only [run, step, startGame_foodAhead]⟩

/-- The session `grown` is reachable and its two cells are distinct. -/
theorem snake_nodup_of_reachable_witness : Reachable grown ∧ grown.snake.Nodup :=
  ⟨reachable_grown, snake_nodup_of_reachable grown reachable_grown⟩

/-! ## Food placement -/

/-- C5. Evaluated: the food set by the eating tick, by `startGame` and by
`resetGame` can lie on the resulting snake.  With the food right ahead of the
start snake and the sample (11,10), the eating tick returns the snake
[(11,10), (10,10)] and the food (11,10), its head; from the dead session with
snake [(19,10)] and the sample (10,10), `startGame` and `resetGame` return the
snake [(10,10)] and the food (10,10). -/
theorem food_spawns_on_snake :
    (Reachable foodAhead ∧
      ∃ s', gameLoop foodAhead (envOf [drawFor ⟨11, 10⟩]) = some s' ∧
        s'.snake = [⟨11, 10⟩, ⟨10, 10⟩] ∧ s'.food = ⟨11, 10⟩ ∧ s'.food ∈ s'.snake) ∧
    (Reachable dead ∧
      (∃ s', startGame dead (envOf [drawFor ⟨10, 10⟩]) = some s' ∧
        s'.snake = [⟨10, 10⟩] ∧ s'.food = ⟨10, 10⟩ ∧ s'.food ∈ s'.snake) ∧
      (∃ s', resetGame dead (envOf [drawFor ⟨10, 10⟩]) = some s' ∧
        s'.snake = [⟨10, 10⟩] ∧ s'.food = ⟨10, 10⟩ ∧ s'.food ∈ s'.snake)) := by
  refine ⟨⟨reachable_foodAhead, ?_⟩, reachable_dead, ?_, ?_⟩
  · rw [gameLoop_playing foodAhead _ ⟨10, 10⟩ [] rfl rfl, if_neg (by decide), if_pos (by decide)]
    simp only [envOf]
    rw [generateFood_drawFor foodAhead.snake ⟨11, 10⟩ [] (by decide)]
    exact ⟨_, rfl, rfl, rfl, by decide⟩
  · rw [startGame_drawFor dead ⟨10, 10⟩ [] (by decide)]
    exact ⟨_, rfl, rfl, rfl, by decide⟩
  · rw [resetGame_drawFor dead ⟨10, 10⟩ [] (by decide)]
    exact ⟨_, rfl, rfl, rfl, by decide⟩

/-! ## Direction changes -/

/-- C6. While the session is playing and the direction `d` is one of Up, Down,
Left, Right, a movement key asking for the exact opposite of `d` changes
nothing, and a movement key asking for any other direction sets the direction
to the one asked for. -/
theorem direction_change (s : State) (e : Env) (code : String) (r : Cell)
    (hplay : s.gameState = GameState.playing)
    (hd : s.direction ∈ unitDirections)
    (hk : (code, r) ∈ keyBindings) :
    handleKeyPress s code e =
      some (if r = opposite s.direction then s else { s with direction := r }) := by
  obtain ⟨gs, sc, sn, fd, dir, sp, ps⟩ := s
  simp only at hplay hd
  subst hplay
  simp only [unitDirections, List.mem_cons, List.mem_singleton, List.not_mem_nil, or_false] at hd
  simp only [keyBindings, List.mem_cons, List.mem_singleton, List.not_mem_nil, or_false,
    Prod.mk.injEq] at hk
  rcases hd with rfl | rfl | rfl | rfl <;>
    rcases hk with ⟨rfl, rfl⟩ | ⟨rfl, rfl⟩ | ⟨rfl, rfl⟩ | ⟨rfl, rfl⟩ | ⟨rfl, rfl⟩ | ⟨rfl, rfl⟩ |
      ⟨rfl, rfl⟩ | ⟨rfl, rfl⟩ <;>
    simp [handleKeyPress, opposite]

/-- Heading right, the key for Left changes nothing. -/
theorem direction_change_witness :
    playingStart.gameState = GameState.playing ∧ playingStart.direction = ⟨1, 0⟩ ∧
      handleKeyPress playingStart "ArrowLeft" (envOf []) = some playingStart :=
  ⟨rfl, rfl,
    (direction_change playingStart (envOf []) "ArrowLeft" ⟨-1, 0⟩ rfl (by decide)
      (by decide)).trans (by decide)⟩

/-! ## Particles -/

theorem sparkle_mem_burst : sparkle ∈ createParticles (envOf []) 11 10 := by
  have h : createParticles (envOf []) 11 10 =
      sparkle :: (List.range' 1 11).map fun (i : Nat) =>
        { sparkle with id := (i : Int) } := by
    simp [createParticles, envOf, sparkle, GRID_SIZE, List.range_eq_range', List.range']
    norm_num
  rw [h]
  exact List.mem_cons_self _ _

/-- The life and the alpha of a particle after `k` applications of the map of
`updateParticles`: each application subtracts one over the life it finds. -/
theorem stepParticle_iterate (p : Particle) (k : Nat) :
    (stepParticle^[k] p).life = p.life - k ∧
      (stepParticle^[k] p).alpha =
        p.alpha - ∑ j in Finset.range k, 1 / ((p.life : ℚ) - j) := by
  induction k with
  | zero => simp
  | succ k ih =>
    rw [Function.iterate_succ_apply', Finset.sum_range_succ]
    obtain ⟨hl, ha⟩ := ih
    constructor
    · simp only [stepParticle, hl]
      push_cast
      ring
    · simp only [stepParticle, hl, ha]
      push_cast
      ring

/-- Every particle of a burst starts with life 40 and alpha 1. -/
theorem createParticles_life_alpha (e : Env) (x y : Int) (p : Particle)
    (hp : p ∈ createParticles e x y) : p.life = 40 ∧ p.alpha = 1 := by
  unfold createParticles at hp
  simp only [List.mem_map] at hp
  obtain ⟨i, _, rfl⟩ := hp
  exact ⟨rfl, rfl⟩

/-- A lone particle of positive life under `k` calls of `updateParticles`: it
is mapped `k` times while `k` is below its life and is gone from then on. -/
theorem updateParticles_iterate_singleton (p : Particle) (hpos : 0 < p.life) (k : Nat) :
    updateParticles^[k] [p] = if (k : Int) < p.life then [stepParticle^[k] p] else [] := by
  induction k with
  | zero => simp [hpos]
  | succ k ih =>
    rw [Function.iterate_succ_apply', ih]
    by_cases hk : (k : Int) < p.life
    · rw [if_pos hk]
      have hl : (stepParticle (stepParticle^[k] p)).life = p.life - (k + 1 : Nat) := by
        rw [← Function.iterate_succ_apply' stepParticle k p]
        exact (stepParticle_iterate p (k + 1)).1
      by_cases hk1 : ((k + 1 : Nat) : Int) < p.life
      · rw [if_pos hk1, Function.iterate_succ_apply']
        simp only [updateParticles, List.map_cons, List.map_nil]
        rw [List.filter_cons_of_pos, List.filter_nil]
        rw [hl]
        simpa using hk1
      · rw [if_neg hk1]
        simp only [updateParticles, List.map_cons, List.map_nil]
        rw [List.filter_cons_of_neg, List.filter_nil]
        rw [hl]
        simpa using hk1
    · rw [if_neg hk, if_neg]
      · rfl
      · push_cast at hk ⊢
        omega

/-- C9. Evaluated on a particle of a burst (life 40, alpha 1): the second
call of `updateParticles` leaves alpha 1481/1560, not 38/40; the 26th call
leaves a negative alpha; the particle is still present, with life 1, after 39
calls and is removed by the 40th, whose recomputed alpha is
-1592457339642613/485721041551200, not 0. -/
theorem particle_alpha_drifts :
    sparkle ∈ createParticles (envOf []) 11 10 ∧ sparkle.life = 40 ∧ sparkle.alpha = 1 ∧
    (updateParticles^[2] [sparkle]).map (fun p => p.alpha) = [1481 / 1560] ∧
    (1481 / 1560 : ℚ) ≠ (40 - 2) / 40 ∧
    (updateParticles^[26] [sparkle]).map (fun p => p.alpha) =
      [-144156096877283 / 5342931457063200] ∧
    (updateParticles^[39] [sparkle]).map (fun p => p.life) = [1] ∧
    updateParticles^[40] [sparkle] = [] ∧
    (stepParticle^[40] sparkle).life = 0 ∧
    (stepParticle^[40] sparkle).alpha = -1592457339642613 / 485721041551200 := by
  have hpos : 0 < sparkle.life := by decide
  refine ⟨sparkle_mem_burst, rfl, rfl, ?_, by norm_num, ?_, by decide, by decide, by decide, ?_⟩
  · rw [updateParticles_iterate_singleton sparkle hpos 2, if_pos (by decide)]
    simp only [List.map_cons, List.map_nil]
    rw [(stepParticle_iterate sparkle 2).2]
    simp only [sparkle, Finset.sum_range_succ, Finset.sum_range_zero]
    norm_num
  · rw [updateParticles_iterate_singleton sparkle hpos 26, if_pos (by decide)]
    simp only [List.map_cons, List.map_nil]
    rw [(stepParticle_iterate sparkle 26).2]
    simp only [sparkle, Finset.sum_range_succ, Finset.sum_range_zero]
    norm_num
  · rw [(stepParticle_iterate sparkle 40).2]
    simp only [sparkle, Finset.sum_range_succ, Finset.sum_range_zero]
    norm_num

/-! ## Reversal by two key presses -/

/-- C7. Evaluated: in the reachable playing session `grown` (snake
[(11,10), (10,10)], last tick applied Right), the key presses Up then Left are
both accepted, the direction becomes Left, the exact opposite of the direction
of the last tick, the head cell of the next tick is the neck (10,10), and that
tick ends the game. -/
theorem reversal_by_two_keys :
    Reachable grown ∧ grown.gameState = GameState.playing ∧
    grown.snake = [⟨11, 10⟩, ⟨10, 10⟩] ∧ grown.direction = ⟨1, 0⟩ ∧
    ∃ s2, run grown [Event.key "ArrowUp" (envOf []), Event.key "ArrowLeft" (envOf [])] = some s2 ∧
      s2.gameState = GameState.playing ∧ s2.snake = grown.snake ∧
      s2.direction = opposite grown.direction ∧
      newHead ⟨11, 10⟩ s2.direction = ⟨10, 10⟩ ∧
      ∃ s3, gameLoop s2 (envOf []) = some s3 ∧ s3.gameState = GameState.gameOver := by
  refine ⟨reachable_grown, rfl, rfl, rfl, { grown with direction := ⟨-1, 0⟩ }, ?_, rfl, rfl,
    by decide, by decide, ?_⟩
  · rfl
  · refine ⟨{ grown with
        direction := ⟨-1, 0⟩
        gameState := GameState.gameOver
        particles := updateParticles grown.particles }, ?_, rfl⟩
    rw [gameLoop_playing _ _ ⟨11, 10⟩ [⟨10, 10⟩] rfl rfl, if_pos (Or.inr (by decide))]

/-! ## Pause -/

/-- C8. Evaluated: in the reachable `gameOver` session `dead` the pause button
is enabled and `togglePause` sets the game state to `playing`; after it a key
press and a tick move the dead snake on.  (`togglePause` does toggle between
`playing` and `paused`, and in `menu` the button is disabled.) -/
theorem pause_revives_dead_session :
    Reachable dead ∧ dead.gameState = GameState.gameOver ∧
    togglePause dead = { dead with gameState := GameState.playing } ∧
    clickPauseButton dead = { dead with gameState := GameState.playing } ∧
    (∃ s', run dead [Event.pause, Event.key "ArrowUp" (envOf []), Event.tick (envOf [])] = some s' ∧
      s'.gameState = GameState.playing ∧ s'.snake = [⟨19, 9⟩]) ∧
    togglePause playingStart = { playingStart with gameState := GameState.paused } ∧
    togglePause { playingStart with gameState := GameState.paused } = playingStart ∧
    (togglePause initialState).gameState = GameState.playing ∧
    clickPauseButton initialState = initialState := by
  refine ⟨reachable_dead, rfl, by decide, by decide, ⟨_, rfl, rfl, rfl⟩, by decide, by decide,
    by decide, by decide⟩

/-! ## Start and reset -/

/-- Once the food sampling draws a cell off the snake held before the call,
`startGame` and `resetGame` return the fresh session, with state `playing` and
`menu`, around the sampled food. -/
theorem startGame_resetGame_of_draw (s : State) (e : Env)
    (hdraw : ∃ d ∈ e.draws, sampleCell d ∉ s.snake) :
    ∃ f, generateFood s.snake e.draws = some f ∧
      startGame s e =
        some
          { gameState := GameState.playing
            score := 0
            snake := [⟨10, 10⟩]
            food := f
            direction := ⟨1, 0⟩
            gameSpeed := 150
            particles := [] } ∧
      resetGame s e =
        some
          { gameState := GameState.menu
            score := 0
            snake := [⟨10, 10⟩]
            food := f
            direction := ⟨1, 0⟩
            gameSpeed := 150
            particles := [] } := by
  obtain ⟨f, hf⟩ := (generateFood_isSome_iff s.snake e.draws).2 hdraw
  refine ⟨f, hf, ?_, ?_⟩
  · unfold startGame
    rw [hf]
  · unfold resetGame
    rw [hf]

/-! ## Tick interval and score -/

/-- The interval and the score a reset handler leaves. -/
theorem startGame_speed_score (s : State) (e : Env) (s' : State)
    (h : startGame s e = some s') : s'.gameSpeed = 150 ∧ s'.score = 0 := by
  unfold startGame at h
  cases hg : generateFood s.snake e.draws with
  | none => rw [hg] at h; cases h
  | some f => rw [hg] at h; cases h; exact ⟨rfl, rfl⟩

theorem resetGame_speed_score (s : State) (e : Env) (s' : State)
    (h : resetGame s e = some s') : s'.gameSpeed = 150 ∧ s'.score = 0 := by
  unfold resetGame at h
  cases hg : generateFood s.snake e.draws with
  | none => rw [hg] at h; cases h
  | some f => rw [hg] at h; cases h; exact ⟨rfl, rfl⟩

/-- A key press runs `startGame` (Space in `menu`) or leaves the interval and
the score as they are. -/
theorem handleKeyPress_speed_score (s : State) (code : String) (e : Env) (s' : State)
    (h : handleKeyPress s code e = some s') :
    ((s.gameState = GameState.menu ∧ code = "Space") ∧ s'.gameSpeed = 150 ∧ s'.score = 0) ∨
      (¬(s.gameState = GameState.menu ∧ code = "Space") ∧
        s'.gameSpeed = s.gameSpeed ∧ s'.score = s.score) := by
  unfold handleKeyPress at h
  split_ifs at h with hmenu
  · exact Or.inl ⟨hmenu, startGame_speed_score s e s' h⟩
  all_goals
    simp only [Option.some.injEq] at h
    subst h
    exact Or.inr ⟨hmenu, rfl, rfl⟩

/-- A tick leaves the interval and the score as they are, or (when it eats)
sets the interval to `max 80 (interval - 3)` and adds 10 to the score. -/
theorem gameLoop_speed_score (s : State) (e : Env) (s' : State)
    (h : gameLoop s e = some s') :
    (s'.gameSpeed = s.gameSpeed ∧ s'.score = s.score) ∨
      (s'.gameSpeed = max 80 (s.gameSpeed - 3) ∧ s'.score = s.score + 10) := by
  by_cases hplay : s.gameState = GameState.playing
  · cases hsnake : s.snake with
    | nil =>
      unfold gameLoop at h
      simp [hplay, hsnake] at h
    | cons c t =>
      rw [gameLoop_playing s e c t hplay hsnake] at h
      split_ifs at h with hc hf
      · cases h
        exact Or.inl ⟨rfl, rfl⟩
      · cases hg : generateFood s.snake e.draws with
        | none => rw [hg] at h; cases h
        | some f =>
          rw [hg] at h
          cases h
          exact Or.inr ⟨rfl, rfl⟩
      · cases h
        exact Or.inl ⟨rfl, rfl⟩
  · unfold gameLoop at h
    rw [if_pos hplay] at h
    cases h
    exact Or.inl ⟨rfl, rfl⟩

/-- What one event does to the interval and the score: a reset sets 150 and 0;
every other event keeps both or (an eating tick) lowers the interval to
`max 80 (interval - 3)` and adds 10 to the score. -/
theorem step_speed_score (s : State) (ev : Event) (s' : State)
    (h : step s ev = some s') :
    (callsReset s ev ∧ s'.gameSpeed = 150 ∧ s'.score = 0) ∨
      (¬callsReset s ev ∧
        ((s'.gameSpeed = s.gameSpeed ∧ s'.score = s.score) ∨
          (s'.gameSpeed = max 80 (s.gameSpeed - 3) ∧ s'.score = s.score + 10))) := by
  cases ev with
  | start e => exact Or.inl ⟨trivial, startGame_speed_score s e s' h⟩
  | reset e => exact Or.inl ⟨trivial, resetGame_speed_score s e s' h⟩
  | pause =>
    simp only [step, Option.some.injEq] at h
    subst h
    exact Or.inr ⟨fun hf => hf, Or.inl ⟨rfl, rfl⟩⟩
  | key code e =>
    rcases handleKeyPress_speed_score s code e s' h with ⟨hm, h1⟩ | ⟨hm, h1⟩
    · exact Or.inl ⟨hm, h1⟩
    · exact Or.inr ⟨hm, Or.inl h1⟩
  | tick e => exact Or.inr ⟨fun hf => hf, gameLoop_speed_score s e s' h⟩

/-- Every event keeps the interval within [80, 150] and the score at or above
0. -/
theorem step_speed_bounds (s : State) (ev : Event) (s' : State)
    (hP : 80 ≤ s.gameSpeed ∧ s.gameSpeed ≤ 150 ∧ 0 ≤ s.score)
    (h : step s ev = some s') :
    80 ≤ s'.gameSpeed ∧ s'.gameSpeed ≤ 150 ∧ 0 ≤ s'.score := by
  obtain ⟨h1, h2, h3⟩ := hP
  rcases step_speed_score s ev s' h with ⟨_, hg, hs⟩ | ⟨_, ⟨hg, hs⟩ | ⟨hg, hs⟩⟩
  · omega
  · omega
  · rw [hg, hs]
    refine ⟨le_max_left _ _, max_le (by omega) (by omega), by omega⟩

theorem speed_bounds_of_reachable (s : State) (h : Reachable s) :
    80 ≤ s.gameSpeed ∧ s.gameSpeed ≤ 150 ∧ 0 ≤ s.score := by
  obtain ⟨evs, hrun⟩ := h
  exact run_preserves (fun s => 80 ≤ s.gameSpeed ∧ s.gameSpeed ≤ 150 ∧ 0 ≤ s.score)
    step_speed_bounds evs initialState s (by decide) hrun

/-- A tick of a session with a non-empty snake returns, once the food sampling
draws a cell off the snake (or needs no sample). -/
theorem gameLoop_returns (s : State) (e : Env) (hne : s.snake ≠ [])
    (hdraw : ∃ d ∈ e.draws, sampleCell d ∉ s.snake) : ∃ s', gameLoop s e = some s' := by
  by_cases hplay : s.gameState = GameState.playing
  · cases hsnake : s.snake with
    | nil => exact absurd hsnake hne
    | cons c t =>
      obtain ⟨f, hf⟩ := (generateFood_isSome_iff s.snake e.draws).2 hdraw
      rw [gameLoop_playing s e c t hplay hsnake, hf]
      split_ifs <;> exact ⟨_, rfl⟩
  · unfold gameLoop
    rw [if_pos hplay]
    exact ⟨_, rfl⟩

/-- C11. In every state reachable from the initial state the tick interval
lies in [80, 150]; a tick returns (once the food sampling draws a cell off the
snake) and every tick leaves the interval no larger and the score no smaller;
an event that brings the interval back to 150 from another value, or the score
back to 0 from another value, is one that runs `startGame` or `resetGame`, and
those do set the interval to 150 and the score to 0. -/
theorem interval_and_score_of_reachable (s : State) (h : Reachable s) :
    (80 ≤ s.gameSpeed ∧ s.gameSpeed ≤ 150) ∧
    (∀ e : Env, (∃ d ∈ e.draws, sampleCell d ∉ s.snake) → ∃ s', gameLoop s e = some s') ∧
    (∀ (e : Env) (s' : State), gameLoop s e = some s' →
      s'.gameSpeed ≤ s.gameSpeed ∧ s.score ≤ s'.score) ∧
    (∀ (ev : Event) (s' : State), step s ev = some s' →
      ((s.gameSpeed ≠ 150 ∧ s'.gameSpeed = 150) ∨ (s.score ≠ 0 ∧ s'.score = 0)) →
      callsReset s ev) ∧
    (∀ (ev : Event) (s' : State), step s ev = some s' → callsReset s ev →
      s'.gameSpeed = 150 ∧ s'.score = 0) := by
  obtain ⟨h80, h150, hsc⟩ := speed_bounds_of_reachable s h
  have hmax : max 80 (s.gameSpeed - 3) ≤ s.gameSpeed := max_le h80 (by omega)
  refine ⟨⟨h80, h150⟩, fun e hd => gameLoop_returns s e (snake_ne_nil_of_reachable s h) hd,
    ?_, ?_, ?_⟩
  · intro e s' ht
    rcases gameLoop_speed_score s e s' ht with ⟨hg, hs⟩ | ⟨hg, hs⟩
    · omega
    · rw [hg, hs]
      exact ⟨hmax, by omega⟩
  · intro ev s' hst hback
    rcases step_speed_score s ev s' hst with ⟨hr, _⟩ | ⟨_, ⟨hg, hs⟩ | ⟨hg, hs⟩⟩
    · exact hr
    · exfalso
      omega
    · exfalso
      rw [hg, hs] at hback
      omega
  · intro ev s' hst hr
    rcases step_speed_score s ev s' hst with ⟨_, hv⟩ | ⟨hn, _⟩
    · exact hv
    · exact absurd hr hn

/-- The reachable session `grown` (interval 147, score 10): the interval lies
in [80, 150], a tick returns and leaves the interval at most 147 and the score
at least 10, and `resetGame` brings them back to 150 and 0. -/
theorem interval_and_score_of_reachable_witness :
    Reachable grown ∧ (80 ≤ grown.gameSpeed ∧ grown.gameSpeed ≤ 150) ∧
    (∃ s', gameLoop grown (envOf [drawFor ⟨3, 4⟩]) = some s' ∧
      s'.gameSpeed ≤ 147 ∧ 10 ≤ s'.score) ∧
    (∃ s', step grown (Event.reset (envOf [drawFor ⟨3, 4⟩])) = some s' ∧
      s'.gameSpeed = 150 ∧ s'.score = 0) := by
  obtain ⟨hb, hret, hmono, _, hreset⟩ := interval_and_score_of_reachable grown reachable_grown
  have hd : ∃ d ∈ (envOf [drawFor ⟨3, 4⟩]).draws, sampleCell d ∉ grown.snake :=
    ⟨drawFor ⟨3, 4⟩, List.mem_singleton.2 rfl, by rw [sampleCell_drawFor]; decide⟩
  obtain ⟨s1, hs1⟩ := hret (envOf [drawFor ⟨3, 4⟩]) hd
  have hs2 : step grown (Event.reset (envOf [drawFor ⟨3, 4⟩])) =
      some
        { gameState := GameState.menu
          score := 0
          snake := [⟨10, 10⟩]
          direction := ⟨1, 0⟩
          food := ⟨3, 4⟩
          particles := []
          gameSpeed := 150 } :=
    resetGame_drawFor grown ⟨3, 4⟩ [] (by decide)
  exact ⟨reachable_grown, hb, ⟨s1, hs1, hmono _ s1 hs1⟩, ⟨_, hs2, hreset _ _ hs2 trivial⟩⟩

/-! ## Filling the board -/

theorem lane_inGrid (k : Nat) (hk : k < 400) : inGrid (lane k) := by
  unfold inGrid lane
  rw [TILE_COUNT_eq]
  simp only
  split_ifs <;> omega

theorem lane_injective (a b : Nat) (h : lane a = lane b) : a = b := by
  unfold lane at h
  simp only [Cell.mk.injEq] at h
  obtain ⟨hx, hy⟩ := h
  split_ifs at hx <;> omega

theorem lane_succ (k : Nat) : newHead (lane k) (dirAt k) = lane (k + 1) := by
  unfold newHead lane dirAt
  split_ifs <;> simp only [Cell.mk.injEq] <;> constructor <;> omega

theorem dirAt_mem (k : Nat) : dirAt k ∈ unitDirections := by
  unfold dirAt unitDirections
  split_ifs <;> decide

theorem dirAt_succ_ne_opposite (k : Nat) : dirAt (k + 1) ≠ opposite (dirAt k) := by
  unfold dirAt opposite
  split_ifs <;> simp [Cell.mk.injEq] <;> omega

theorem mem_laneBody (n : Nat) (c : Cell) : c ∈ laneBody n ↔ ∃ k, k < n ∧ lane k = c := by
  induction n with
  | zero => simp [laneBody]
  | succ n ih =>
    simp only [laneBody, List.mem_cons, ih]
    constructor
    · rintro (rfl | ⟨k, hk, rfl⟩)
      · exact ⟨n, Nat.lt_succ_self n, rfl⟩
      · exact ⟨k, Nat.lt_succ_of_lt hk, rfl⟩
    · rintro ⟨k, hk, rfl⟩
      rcases Nat.lt_succ_iff_lt_or_eq.1 hk with h | h
      · exact Or.inr ⟨k, h, rfl⟩
      · exact Or.inl (by rw [h])

theorem laneBody_length (n : Nat) : (laneBody n).length = n := by
  induction n with
  | zero => rfl
  | succ n ih => simp [laneBody, ih]

/-- The path covers the grid: every cell of the grid is on the snake that has
eaten all 400 cells. -/
theorem laneBody_covers (c : Cell) (hc : inGrid c) : c ∈ laneBody 400 := by
  rw [mem_laneBody]
  obtain ⟨x, y⟩ := c
  unfold inGrid at hc
  rw [TILE_COUNT_eq] at hc
  simp only at hc
  obtain ⟨hx0, hx1, hy0, hy1⟩ := hc
  refine ⟨20 * y.toNat + (if y.toNat % 2 = 0 then x.toNat else 19 - x.toNat), ?_, ?_⟩
  · split_ifs <;> omega
  · unfold lane
    simp only [Cell.mk.injEq]
    constructor
    · split_ifs <;> omega
    · split_ifs <;> omega

/-- A sample of two numbers in `[0, 1)` is a cell of the grid. -/
theorem sampleCell_inGrid (d : ℚ × ℚ) (h : (0 ≤ d.1 ∧ d.1 < 1) ∧ (0 ≤ d.2 ∧ d.2 < 1)) :
    inGrid (sampleCell d) := by
  have h20 : ((TILE_COUNT : Int) : ℚ) = 20 := by rw [TILE_COUNT_eq]; norm_num
  obtain ⟨⟨h1, h2⟩, h3, h4⟩ := h
  unfold inGrid sampleCell
  rw [h20, TILE_COUNT_eq]
  simp only
  refine ⟨Int.floor_nonneg.2 (by positivity), ?_, Int.floor_nonneg.2 (by positivity), ?_⟩
  · rw [Int.floor_lt]
    push_cast
    linarith
  · rw [Int.floor_lt]
    push_cast
    linarith

/-- The sample pair of a cell of the grid consists of numbers in `[0, 1)`. -/
theorem legalDraws_drawFor (c : Cell) (hc : inGrid c) : legalDraws [drawFor c] := by
  unfold inGrid at hc
  rw [TILE_COUNT_eq] at hc
  obtain ⟨hx0, hx1, hy0, hy1⟩ := hc
  intro d hd
  rw [List.mem_singleton.1 hd]
  have hx0' : (0 : ℚ) ≤ (c.x : ℚ) := by exact_mod_cast hx0
  have hx1' : (c.x : ℚ) < 20 := by exact_mod_cast hx1
  have hy0' : (0 : ℚ) ≤ (c.y : ℚ) := by exact_mod_cast hy0
  have hy1' : (c.y : ℚ) < 20 := by exact_mod_cast hy1
  simp only [drawFor]
  refine ⟨⟨by positivity, ?_⟩, by positivity, ?_⟩
  · rw [div_lt_one (by norm_num)]
    exact hx1'
  · rw [div_lt_one (by norm_num)]
    exact hy1'

/-- On a snake that covers the grid the loop of `generateFood` never ends,
whatever `Math.random()` returns. -/
theorem generateFood_none_of_covers (snake : List Cell) (draws : List (ℚ × ℚ))
    (hcover : ∀ c, inGrid c → c ∈ snake) (hlegal : legalDraws draws) :
    generateFood snake draws = none := by
  cases hg : generateFood snake draws with
  | none => rfl
  | some f =>
    exfalso
    obtain ⟨d, hd, hn⟩ := (generateFood_isSome_iff snake draws).1 ⟨f, hg⟩
    exact hn (hcover _ (sampleCell_inGrid d (hlegal d hd)))

/-- While playing, the arrow key for a unit direction that is not the opposite
of the current one sets the direction. -/
theorem handleKeyPress_keyOf (s : State) (e : Env) (r : Cell)
    (hplay : s.gameState = GameState.playing)
    (hr : r ∈ unitDirections) (hno : r ≠ opposite s.direction)
    (hd : s.direction ∈ unitDirections) :
    handleKeyPress s (keyOf r) e = some { s with direction := r } := by
  obtain ⟨gs, sc, sn, fd, dir, sp, ps⟩ := s
  simp only at hplay hd hno
  subst hplay
  simp only [unitDirections, List.mem_cons, List.mem_singleton, List.not_mem_nil, or_false]
    at hd hr
  rcases hd with rfl | rfl | rfl | rfl <;> rcases hr with rfl | rfl | rfl | rfl <;>
    first
    | exact absurd rfl hno
    | simp [handleKeyPress, keyOf]

theorem run_append (s : State) (evs evs' : List Event) :
    run s (evs ++ evs') = (run s evs).bind fun s' => run s' evs' := by
  induction evs generalizing s with
  | nil => rfl
  | cons ev rest ih =>
    simp only [List.cons_append, run]
    cases step s ev with
    | none => rfl
    | some s1 => exact ih s1

theorem startGame_slid_food :
    startGame initialState (envOf [drawFor ⟨1, 0⟩]) =
      some { playingStart with food := ⟨1, 0⟩ } :=
  startGame_drawFor initialState ⟨1, 0⟩ [] (by decide)

theorem run_slideRun : run initialState slideRun = some slid := by
  simp only [slideRun, run, step, startGame_slid_food]
  decide

/-- One meal on the path: with the first `j + 1` cells eaten and the food on the
next cell, the arrow key and the tick of `mealEvents j` leave the first `j + 2`
cells eaten and the food on the cell after. -/
theorem run_mealEvents (j : Nat) (hj : j ≤ 398) (s : State)
    (hplay : s.gameState = GameState.playing) (hsnake : s.snake = laneBody (j + 1))
    (hfood : s.food = lane (min (j + 1) 399))
    (hdir : s.direction ∈ unitDirections) (hno : dirAt j ≠ opposite s.direction) :
    ∃ s', run s (mealEvents j) = some s' ∧ s'.gameState = GameState.playing ∧
      s'.snake = laneBody (j + 2) ∧ s'.food = lane (min (j + 2) 399) ∧
      s'.direction = dirAt j := by
  have hkey := handleKeyPress_keyOf s (envOf []) (dirAt j) hplay (dirAt_mem j) hno hdir
  obtain ⟨gs, sc, sn, fd, dir, sp, ps⟩ := s
  simp only at hplay hsnake hfood hkey
  subst hplay hsnake hfood
  have hmin : min (j + 1) 399 = j + 1 := min_eq_left (by omega)
  have hoff : lane (j + 1) ∉ laneBody (j + 1) := by
    rw [mem_laneBody]
    rintro ⟨k, hk, hkl⟩
    have := lane_injective _ _ hkl
    omega
  have hnext : lane (min (j + 2) 399) ∉ laneBody (j + 1) := by
    rw [mem_laneBody]
    rintro ⟨k, hk, hkl⟩
    have := lane_injective _ _ hkl
    omega
  have hwall : hitsWall (lane (j + 1)) = false :=
    (hitsWall_eq_false_iff _).2 (lane_inGrid (j + 1) (by omega))
  have hself : hitsSnake (laneBody (j + 1)) (lane (j + 1)) = false :=
    (hitsSnake_eq_false_iff _ _).2 hoff
  have htick := gameLoop_playing
    { gameState := GameState.playing, score := sc, snake := laneBody (j + 1),
      food := lane (min (j + 1) 399), direction := dirAt j, gameSpeed := sp, particles := ps }
    (envOf [drawFor (lane (min (j + 2) 399))]) (lane j) (laneBody j) rfl rfl
  have hdraws : ∀ l : List (ℚ × ℚ), (envOf l).draws = l := fun _ => rfl
  simp only [lane_succ, hwall, hself, hmin, Bool.false_eq_true, or_self, if_false, if_true,
    hdraws, generateFood_drawFor _ _ [] hnext, Option.map_some'] at htick
  simp only [hmin] at hkey
  simp only [mealEvents, run, step, hmin, hkey, htick]
  exact ⟨_, rfl, rfl, rfl, rfl, rfl⟩

/-- The first `n` meals from the corner: the snake is the first `n + 1` cells
of the path and the food lies on the next one. -/
theorem run_feedRun (n : Nat) (hn : n ≤ 399) :
    ∃ s, run slid (feedRun n) = some s ∧ s.gameState = GameState.playing ∧
      s.snake = laneBody (n + 1) ∧ s.food = lane (min (n + 1) 399) ∧
      s.direction ∈ unitDirections ∧ dirAt n ≠ opposite s.direction := by
  induction n with
  | zero => exact ⟨slid, rfl, rfl, by decide, by decide, by decide, by decide⟩
  | succ n ih =>
    obtain ⟨s, hrun, hplay, hsnake, hfood, hdir, hno⟩ := ih (by omega)
    obtain ⟨s', hrun', hplay', hsnake', hfood', hdir'⟩ :=
      run_mealEvents n (by omega) s hplay hsnake hfood hdir hno
    refine ⟨s', ?_, hplay', hsnake', hfood', ?_, ?_⟩
    · simp only [feedRun]
      rw [run_append, hrun]
      exact hrun'
    · rw [hdir']
      exact dirAt_mem n
    · rw [hdir']
      exact dirAt_succ_ne_opposite n

/-- A tick of a playing session whose snake covers the grid ends the game and
returns the snake as it was. -/
theorem gameLoop_of_covers (s : State) (e : Env) (h : Cell) (t : List Cell)
    (hplay : s.gameState = GameState.playing) (hsnake : s.snake = h :: t)
    (hcover : ∀ c, inGrid c → c ∈ s.snake) :
    gameLoop s e =
      some { s with gameState := GameState.gameOver, particles := updateParticles s.particles } := by
  rw [gameLoop_playing s e h t hplay hsnake, if_pos]
  by_cases hg : inGrid (newHead h s.direction)
  · exact Or.inr ((hitsSnake_iff _ _).2 (hcover _ hg))
  · left
    cases hw : hitsWall (newHead h s.direction) with
    | true => rfl
    | false => exact absurd ((hitsWall_eq_false_iff _).1 hw) hg

/-- The run `fullRun` ends in a `gameOver` session whose snake is the whole
path. -/
theorem run_fullRun :
    ∃ s, run initialState fullRun = some s ∧ s.gameState = GameState.gameOver ∧
      s.snake = laneBody 400 := by
  obtain ⟨s, hrun, hplay, hsnake, _, _, _⟩ := run_feedRun 399 (le_refl _)
  have hcover : ∀ c, inGrid c → c ∈ s.snake := fun c hc => hsnake ▸ laneBody_covers c hc
  have htick := gameLoop_of_covers s (envOf []) (lane 399) (laneBody 399) hplay hsnake hcover
  refine ⟨{ s with gameState := GameState.gameOver, particles := updateParticles s.particles },
    ?_, rfl, hsnake⟩
  simp only [fullRun]
  rw [run_append, run_slideRun, Option.some_bind, run_append, hrun, Option.some_bind]
  simp only [run, step, htick]

/-! ## Start and reset on a board with and without a free cell -/

/-- On a snake that covers the grid neither `startGame` nor `resetGame`
returns, whatever `Math.random()` returns. -/
theorem startGame_resetGame_none_of_covers (s : State) (e : Env)
    (hcover : ∀ c, inGrid c → c ∈ s.snake) (hlegal : legalDraws e.draws) :
    startGame s e = none ∧ resetGame s e = none := by
  have hg := generateFood_none_of_covers s.snake e.draws hcover hlegal
  constructor
  · unfold startGame
    rw [hg]
  · unfold resetGame
    rw [hg]

/-- Counterexample to C10 read for every state: the run `fullRun` (slide to
the corner, 399 meals along the row-by-row path, one more tick) reaches a
`gameOver` session whose snake of 400 cells covers the grid, and there neither
`startGame` nor `resetGame` returns on any samples in `[0, 1)`. -/
theorem start_hangs_on_full_board :
    ∃ s, Reachable s ∧ s.gameState = GameState.gameOver ∧ s.snake = laneBody 400 ∧
      s.snake.length = 400 ∧ (∀ c, inGrid c → c ∈ s.snake) ∧
      ∀ e : Env, legalDraws e.draws → startGame s e = none ∧ resetGame s e = none := by
  obtain ⟨s, hrun, hover, hsnake⟩ := run_fullRun
  have hcover : ∀ c, inGrid c → c ∈ s.snake := fun c hc => hsnake ▸ laneBody_covers c hc
  exact ⟨s, ⟨fullRun, hrun⟩, hover, hsnake, by rw [hsnake, laneBody_length], hcover,
    fun e hl => startGame_resetGame_none_of_covers s e hcover hl⟩

/-- C10, amended. The game state is `menu` initially; from every state whose
snake leaves a cell `c` of the grid free, a sample in `[0, 1)` exists on which
`startGame` and `resetGame` return, and on every sampling that draws a cell
off the snake held before the call `startGame` returns the state `playing`
with score 0, snake [(10,10)], direction (1,0), tick interval 150 and no
particles, and `resetGame` returns the same values with state `menu`: apart
from the sampled food nothing of the state before the call is left. -/
theorem start_and_reset_of_free_cell (s : State) (e : Env) (c : Cell)
    (hgrid : inGrid c) (hfree : c ∉ s.snake)
    (hdraw : ∃ d ∈ e.draws, sampleCell d ∉ s.snake) :
    initialState.gameState = GameState.menu ∧
    (legalDraws [drawFor c] ∧
      (∃ s', startGame s (envOf [drawFor c]) = some s') ∧
      (∃ s', resetGame s (envOf [drawFor c]) = some s')) ∧
    ∃ f, generateFood s.snake e.draws = some f ∧ f ∉ s.snake ∧
      startGame s e =
        some
          { gameState := GameState.playing
            score := 0
            snake := [⟨10, 10⟩]
            food := f
            direction := ⟨1, 0⟩
            gameSpeed := 150
            particles := [] } ∧
      resetGame s e =
        some
          { gameState := GameState.menu
            score := 0
            snake := [⟨10, 10⟩]
            food := f
            direction := ⟨1, 0⟩
            gameSpeed := 150
            particles := [] } := by
  obtain ⟨f, hf, hs, hr⟩ := startGame_resetGame_of_draw s e hdraw
  refine ⟨rfl, ⟨legalDraws_drawFor c hgrid, ⟨_, startGame_drawFor s c [] hfree⟩,
    ⟨_, resetGame_drawFor s c [] hfree⟩⟩, f, hf, generateFood_not_mem _ _ _ hf, hs, hr⟩

/-- From the grown session (score 10, two cells, interval 147, particles in
flight), where the cell (3,4) is free, with the sample (3,4): `startGame`
returns the fresh playing session and `resetGame` the fresh menu session. -/
theorem start_and_reset_of_free_cell_witness :
    inGrid ⟨3, 4⟩ ∧ (⟨3, 4⟩ : Cell) ∉ grown.snake ∧
    (∃ d ∈ (envOf [drawFor ⟨3, 4⟩]).draws, sampleCell d ∉ grown.snake) ∧
    startGame grown (envOf [drawFor ⟨3, 4⟩]) = some { playingStart with food := ⟨3, 4⟩ } ∧
    resetGame grown (envOf [drawFor ⟨3, 4⟩]) = some { initialState with food := ⟨3, 4⟩ } := by
  have hd : ∃ d ∈ (envOf [drawFor ⟨3, 4⟩]).draws, sampleCell d ∉ grown.snake :=
    ⟨drawFor ⟨3, 4⟩, List.mem_singleton.2 rfl, by rw [sampleCell_drawFor]; decide⟩
  obtain ⟨_, _, f, hf, _, hs, hr⟩ :=
    start_and_reset_of_free_cell grown (envOf [drawFor ⟨3, 4⟩]) ⟨3, 4⟩ (by decide) (by decide) hd
  have hf34 : f = ⟨3, 4⟩ := by
    have h := generateFood_drawFor grown.snake ⟨3, 4⟩ [] (by decide)
    simp only [envOf] at hf
    rw [h] at hf
    exact (Option.some.inj hf).symm
  subst hf34
  exact ⟨by decide, by decide, hd, hs, hr⟩

end SnakeHunt
